import Mathlib

/-!
Verification of the green-sub-pro media-job pipeline.

This file shallowly embeds the core Python modules
(`core/ffmpeg_builder.py`, `core/ffmpeg_runner.py`,
`core/subtitle_manager.py`, `core/job_queue.py`) as executable Lean
definitions and proves the specification claims about them.

Modelling conventions:
- Python `str` is Lean `String` (operated on through `List Char`).
- Python `int` is `ℤ` (unbounded, as in Python); counts are `ℕ`.
- Python `float` used for durations/progress is modelled as `ℚ`; the
  arithmetic the code performs on it is division/multiplication/min,
  which is structure-preserving under this embedding.
- Python exceptions are modelled with `Except PyErr`; `try/except`
  blocks become `match` on the `Except` value.
- File-system and subprocess effects are abstracted into explicit
  environment/outcome parameters; the pure control flow and string
  manipulation of the source are kept verbatim.
-/

/-- Whitespace characters recognised by the embedding of Python's
`str.strip()` / `int()` whitespace stripping (the ASCII subset). -/
def pySpace (c : Char) : Bool :=
  c = ' ' ∨ c = '\t' ∨ c = '\n' ∨ c = '\r' ∨ c = '\x0b' ∨ c = '\x0c'

/-- Embedding of Python `str.strip()` on a character list: drop
whitespace from both ends. -/
def pyStripL (l : List Char) : List Char :=
  ((l.dropWhile pySpace).reverse.dropWhile pySpace).reverse

/-- Embedding of Python `str.strip()`. -/
def pyStrip (s : String) : String :=
  String.mk (pyStripL s.data)

/-- Value of a decimal digit character. -/
def digitVal (c : Char) : ℕ := c.toNat - 48

/-- Value of a list of decimal digit characters (most significant first). -/
def digitsVal (l : List Char) : ℕ :=
  l.foldl (fun a c => 10 * a + digitVal c) 0

/-- Decimal digit character for a single digit value. -/
def decChar (d : ℕ) : Char :=
  match d with
  | 0 => '0' | 1 => '1' | 2 => '2' | 3 => '3' | 4 => '4'
  | 5 => '5' | 6 => '6' | 7 => '7' | 8 => '8' | _ => '9'

/-- Fuel-driven helper for `decDigits` (structural recursion keeps the
definition kernel-reducible). -/
def decDigitsAux (fuel : ℕ) (n : ℕ) : List Char :=
  match fuel with
  | 0 => []
  | fuel + 1 =>
    if n < 10 then [decChar n]
    else decDigitsAux fuel (n / 10) ++ [decChar (n % 10)]

/-- Decimal digit characters of a natural number (most significant
first); `n + 1` units of fuel always suffice. -/
def decDigits (n : ℕ) : List Char := decDigitsAux (n + 1) n

/-- Decimal rendering of a natural number (Python `str` on a
non-negative `int`). -/
def decRepr (n : ℕ) : String := String.mk (decDigits n)

/-- Embedding of Python `str` on an `int`. -/
def intRepr (n : ℤ) : String :=
  if n < 0 then "-" ++ decRepr (-n).toNat else decRepr n.toNat

/-- Body of a Python integer literal: digits with optional single
underscores between digits (PEP 515), here after an optional sign was
removed.  Checks everything after the first character. -/
def intBodyRest : List Char → Bool
  | [] => true
  | c :: rest =>
    if c = '_' then
      match rest with
      | c2 :: rest2 => c2.isDigit && intBodyRest rest2
      | [] => false
    else c.isDigit && intBodyRest rest

/-- A valid (sign-free) Python integer literal body: non-empty, starts
with a digit, then digits with optional single underscores. -/
def intBody : List Char → Bool
  | [] => false
  | c :: rest => c.isDigit && intBodyRest rest

/-- Numeric value of an integer literal body (ignoring underscores). -/
def intBodyVal (l : List Char) : ℕ :=
  digitsVal (l.filter (fun c => c ≠ '_'))

/-- Integer parsing on an already-stripped character list: one optional
leading sign, then a decimal literal body. -/
def pyIntL : List Char → Option ℤ
  | [] => none
  | c :: rest =>
    if c = '+' then if intBody rest then some (intBodyVal rest : ℤ) else none
    else if c = '-' then if intBody rest then some (-(intBodyVal rest : ℤ)) else none
    else if intBody (c :: rest) then some (intBodyVal (c :: rest) : ℤ) else none

/-- Embedding of Python `int(s)` on a string: strips whitespace, allows
one leading sign, then a decimal literal body; `none` models the
`ValueError` raised on anything else. -/
def pyInt (s : String) : Option ℤ :=
  pyIntL (pyStripL s.data)

/-- Embedding of Python `str.split(sep)` for a single-character
separator, on character lists: splits on every occurrence, keeping
empty parts (so `splitCharL 'x' "axxb" = ["a", "", "b"]`). -/
def splitCharL (sep : Char) : List Char → List (List Char)
  | [] => [[]]
  | c :: rest =>
    let r := splitCharL sep rest
    if c = sep then [] :: r
    else
      match r with
      | [] => [[c]]
      | p :: ps => (c :: p) :: ps

/-- Embedding of Python `str.split(sep)` for a single-character separator. -/
def splitChar (sep : Char) (s : String) : List String :=
  (splitCharL sep s.data).map String.mk

/-- Whether `p` is a leading segment of `l`. -/
def leadsWith (p l : List Char) : Bool :=
  match p, l with
  | [], _ => true
  | _ :: _, [] => false
  | a :: p, b :: l => a = b && leadsWith p l

/-- Whether `p` occurs as a contiguous segment anywhere in `l`
(embedding of Python's `in` on strings). -/
def containsSeq (p l : List Char) : Bool :=
  match l with
  | [] => leadsWith p []
  | _ :: rest => leadsWith p l || containsSeq p rest

/-- ASCII lower-casing of a character (embedding of `str.lower()`,
restricted to ASCII as used by the source). -/
def pyLowerChar (c : Char) : Char :=
  if 'A' ≤ c ∧ c ≤ 'Z' then Char.ofNat (c.toNat + 32) else c

/-- Embedding of Python `str.lower()` (ASCII). -/
def pyLower (s : String) : String := String.mk (s.data.map pyLowerChar)

/-- Left-pad a character list with `'0'` to the given width
(embedding of the zero-padding in Python format specs like `{:02d}`). -/
def padZeroLeft (w : ℕ) (l : List Char) : List Char :=
  List.replicate (w - l.length) '0' ++ l

/-- Embedding of the Python format `f"{n:0Wd}"` on an `int`: zero-pad
to total width `w`, with the sign counted inside the width. -/
def intPad (w : ℕ) (n : ℤ) : String :=
  if n < 0 then "-" ++ String.mk (padZeroLeft (w - 1) (decDigits (-n).toNat))
  else String.mk (padZeroLeft w (decDigits n.toNat))

/-- Embedding of Python `str.ljust(w, c)`: right-pad to width `w`. -/
def ljust (s : String) (w : ℕ) (c : Char) : String :=
  String.mk (s.data ++ List.replicate (w - s.data.length) c)

/-- Uppercase hexadecimal digit character for a single digit value. -/
def hexChar (d : ℕ) : Char :=
  match d with
  | 0 => '0' | 1 => '1' | 2 => '2' | 3 => '3' | 4 => '4'
  | 5 => '5' | 6 => '6' | 7 => '7' | 8 => '8' | 9 => '9'
  | 10 => 'A' | 11 => 'B' | 12 => 'C' | 13 => 'D' | 14 => 'E' | _ => 'F'

/-- Fuel-driven helper for `hexDigits`. -/
def hexDigitsAux (fuel : ℕ) (n : ℕ) : List Char :=
  match fuel with
  | 0 => []
  | fuel + 1 =>
    if n < 16 then [hexChar n]
    else hexDigitsAux fuel (n / 16) ++ [hexChar (n % 16)]

/-- Uppercase hexadecimal digit characters of a natural number. -/
def hexDigits (n : ℕ) : List Char := hexDigitsAux (n + 1) n

/-- Embedding of the Python format `f"{n:02X}"` on an `int`. -/
def hexFmt02X (n : ℤ) : String :=
  if n < 0 then "-" ++ String.mk (padZeroLeft 1 (hexDigits (-n).toNat))
  else String.mk (padZeroLeft 2 (hexDigits n.toNat))

/-- Python exceptions that the embedded code can raise. -/
inductive PyErr where
  | valueError (msg : String)
  | keyError (key : String)
  | fileNotFoundError (msg : String)
  deriving Repr, DecidableEq

/-- Embedding of Python `str(e)` on an exception value (`KeyError`
renders as the `repr` of its key). -/
def pyErrStr : PyErr → String
  | .valueError m => m
  | .keyError k => "'" ++ k ++ "'"
  | .fileNotFoundError m => m

/-- Wrapper for `int()` that carries Python's `ValueError` message. -/
def pyIntE (s : String) : Except PyErr ℤ :=
  match pyInt s with
  | some v => .ok v
  | none => .error (.valueError ("invalid literal for int() with base 10: '" ++ s ++ "'"))

/-! ## `core/ffmpeg_builder.py` -/

/-- Embedding of `FFmpegBuilder._hex_to_ass_color`: convert `#RRGGBB`
to the ASS token `&H(AA)(BB)(GG)(RR)`; alpha 0 = fully opaque, 255 =
fully transparent (ASS convention).  `lstrip('#')` removes every
leading `#`; a body whose length is not 6 falls back to `FFFFFF`. -/
def hex_to_ass_color (hex_color : String) (alpha : ℤ := 0) : String :=
  let body := hex_color.data.dropWhile (fun c => c = '#')
  let body := if body.length ≠ 6 then "FFFFFF".data else body
  let r := body.take 2
  let g := (body.drop 2).take 2
  let b := (body.drop 4).take 2
  "&H" ++ hexFmt02X alpha ++ String.mk b ++ String.mk g ++ String.mk r

/-- The default style dictionary of `FFmpegBuilder._parse_styles`,
fields in Python insertion order. -/
structure StyleDict where
  FontName : String := "Arial"
  FontSize : ℤ := 50
  MarginV : ℤ := 60
  Shadow : ℤ := 2
  Outline : ℤ := 0
  PrimaryColour : String := "#FFFFFF"
  OutlineColour : String := "#000000"
  OutlineAlpha : ℤ := 0
  Bold : String := "0"
  Italic : String := "0"
  deriving Repr, DecidableEq

/-- Embedding of `re.search(key + "=([^,]+)", s)` as used by
`_parse_styles`: find the leftmost occurrence of `key=` that is
followed by at least one non-comma character, and return the maximal
run of non-comma characters after it. -/
def findKV (pat : List Char) : List Char → Option (List Char)
  | [] => none
  | c :: rest =>
    match
      (match (c :: rest).drop pat.length with
       | a :: after =>
         if leadsWith pat (c :: rest) ∧ a ≠ ',' then
           some ((a :: after).takeWhile (fun x => x ≠ ','))
         else none
       | [] => none) with
    | some v => some v
    | none => findKV pat rest

/-- One string-valued field of `_parse_styles`: the regex hit
(stripped) or the default. -/
def styleFieldStr (key dflt : String) (l : List Char) : String :=
  match findKV (key.data ++ ['=']) l with
  | some v => String.mk (pyStripL v)
  | none => dflt

/-- One integer-valued field of `_parse_styles`: `int()` of the regex
hit (stripped), which may raise `ValueError`, or the default. -/
def styleFieldInt (key : String) (dflt : ℤ) (l : List Char) : Except PyErr ℤ :=
  match findKV (key.data ++ ['=']) l with
  | some v => pyIntE (String.mk (pyStripL v))
  | none => .ok dflt

/-- Embedding of `FFmpegBuilder._parse_styles`: scan the comma-separated
`key=value` style string for the fixed keys, in dictionary insertion
order (which fixes which `ValueError` surfaces first). -/
def parse_styles (s : String) : Except PyErr StyleDict := do
  let l := s.data
  let fontName := styleFieldStr "FontName" "Arial" l
  let fontSize ← styleFieldInt "FontSize" 50 l
  let marginV ← styleFieldInt "MarginV" 60 l
  let shadow ← styleFieldInt "Shadow" 2 l
  let outline ← styleFieldInt "Outline" 0 l
  let primary := styleFieldStr "PrimaryColour" "#FFFFFF" l
  let outlineColour := styleFieldStr "OutlineColour" "#000000" l
  let outlineAlpha ← styleFieldInt "OutlineAlpha" 0 l
  let bold := styleFieldStr "Bold" "0" l
  let italic := styleFieldStr "Italic" "0" l
  pure { FontName := fontName, FontSize := fontSize, MarginV := marginV,
         Shadow := shadow, Outline := outline, PrimaryColour := primary,
         OutlineColour := outlineColour, OutlineAlpha := outlineAlpha,
         Bold := bold, Italic := italic }

/-- Join a list of strings with commas (the comma-separated shape of
the `force_style` f-string). -/
def commaJoin : List String → String
  | [] => ""
  | [x] => x
  | x :: rest => x ++ "," ++ commaJoin rest

/-- The `force_style` string assembled by
`FFmpegBuilder.build_subtitle_filter` from a parsed style dictionary:
the comma-separated attribute list, in source order, where
`border_style` is the constant 1 and `outline_val` is the parsed
`Outline`; the outline colour's alpha is the parsed `OutlineAlpha`
clamped to `[0, 255]`. -/
def build_force_style (s : StyleDict) : String :=
  let ass_primary := hex_to_ass_color s.PrimaryColour 0
  let ass_outline := hex_to_ass_color s.OutlineColour (min 255 (max 0 s.OutlineAlpha))
  commaJoin
    ["FontName=" ++ s.FontName,
     "FontSize=" ++ intRepr s.FontSize,
     "PrimaryColour=" ++ ass_primary,
     "OutlineColour=" ++ ass_outline,
     "MarginV=" ++ intRepr s.MarginV,
     "BorderStyle=1",
     "Outline=" ++ intRepr s.Outline,
     "Shadow=" ++ intRepr s.Shadow,
     "Bold=" ++ s.Bold,
     "Italic=" ++ s.Italic,
     "Alignment=2"]

/-- Replace one character by a replacement string everywhere
(embedding of `str.replace` with a single-character needle). -/
def replaceChar (c : Char) (rep : List Char) (l : List Char) : List Char :=
  l.flatMap (fun x => if x = c then rep else [x])

/-- The path escaping of `build_subtitle_filter`: backslash, colon and
single quote are escaped, in that order of `replace` calls. -/
def escapeSubPath (p : String) : String :=
  String.mk (replaceChar '\'' ['\\', '\'']
    (replaceChar ':' ['\\', ':']
      (replaceChar '\\' ['\\', '\\'] p.data)))

/-- Embedding of `FFmpegBuilder.build_subtitle_filter`: the full
`subtitles='path':force_style='...'` filter string (errors are the
`ValueError`s of style parsing). -/
def build_subtitle_filter (safe_sub_path : String) (sub_styles_str : String) :
    Except PyErr String := do
  let s ← parse_styles sub_styles_str
  pure ("subtitles='" ++ escapeSubPath safe_sub_path ++ "':force_style='" ++
        build_force_style s ++ "'")

/-- The `QUALITY_PRESETS` table:
`(crf_x264, crf_x265, hw_mbps_video, audio_kbps)`, with unknown names
falling back to `Medium` as in `QUALITY_PRESETS.get(quality, ...)`. -/
def qualityPresets (quality : String) : ℤ × ℤ × ℤ × ℤ :=
  if quality = "Low" then (28, 32, 4, 128)
  else if quality = "Best" then (14, 16, 20, 320)
  else if quality = "Medium" then (20, 24, 8, 192)
  else (20, 24, 8, 192)

/-- The preset dictionary lookup
`{"Low": "fast", "Medium": "medium", "Best": "slow"}[quality]` used on
the software-codec paths: raises `KeyError` for any other name. -/
def presetLookup (quality : String) : Except PyErr String :=
  if quality = "Low" then .ok "fast"
  else if quality = "Medium" then .ok "medium"
  else if quality = "Best" then .ok "slow"
  else .error (.keyError quality)

/-- Embedding of `FFmpegBuilder._quality_flags`. -/
def quality_flags (codec : String) (quality : String) :
    Except PyErr (List String) := do
  let (crf_264, crf_265, hw_mbps, audio_kbps) := qualityPresets quality
  let flags ←
    if codec = "libx264" then do
      let preset ← presetLookup quality
      pure ["-crf", intRepr crf_264, "-preset", preset]
    else if codec = "libx265" then do
      let preset ← presetLookup quality
      pure ["-crf", intRepr crf_265, "-preset", preset, "-tag:v", "hvc1"]
    else if codec = "h264_videotoolbox" ∨ codec = "hevc_videotoolbox" then
      pure (["-b:v", intRepr hw_mbps ++ "M", "-realtime", "0"] ++
            (if quality = "Best" then ["-q:v", "60"] else []))
    else
      pure ["-crf", intRepr crf_264]
  pure (flags ++ ["-b:a", intRepr audio_kbps ++ "k"])

/-- Rendering of Python `str()` on the float duration/seek values that
are appended to the commands (`-t`, `-ss`).  Exact float formatting is
outside this embedding; no verified claim depends on this text, only
on the position of the argument.  Integral values render as `n.0` like
Python floats do. -/
def pyNumStr (q : ℚ) : String :=
  if q.den = 1 then intRepr q.num ++ ".0"
  else intRepr q.num ++ "/" ++ decRepr q.den

/-- Embedding of `(int(x) for x in resolution.split('x'))` unpacked
into the pair `(w, h)`: a `ValueError` models both a failed `int()`
and an unpacking of a part count other than two. -/
def parseResolution (resolution : String) : Except PyErr (ℤ × ℤ) :=
  match splitChar 'x' resolution with
  | [a, b] => do
    let w ← pyIntE a
    let h ← pyIntE b
    pure (w, h)
  | _ => .error (.valueError ("not enough values to unpack: " ++ resolution))

/-- Rounding used by both command builders: `w += w % 2` makes each
dimension even (Python `%` on `int` is `Int.emod` for a positive
modulus). -/
def evenUp (n : ℤ) : ℤ := n + n % 2

/-- Embedding of `FFmpegBuilder.build_burn_command`. -/
def build_burn_command (input_video safe_sub_path output_path bg_hex sub_styles : String)
    (video_codec : String := "libx264") (duration_sec : ℚ := 0)
    (quality : String := "Medium") (resolution : String := "1920x1080") :
    Except PyErr (List String) := do
  let bg_color := String.mk (bg_hex.data.dropWhile (fun c => c = '#'))
  let (w, h) ← parseResolution resolution
  let w := evenUp w
  let h := evenUp h
  let res_str := intRepr w ++ "x" ++ intRepr h
  let cmd := ["ffmpeg", "-y", "-f", "lavfi",
              "-i", "color=c=#" ++ bg_color ++ ":s=" ++ res_str ++ ":r=25",
              "-i", input_video]
  let cmd ←
    if safe_sub_path ≠ "" then do
      let sf ← build_subtitle_filter safe_sub_path sub_styles
      pure (cmd ++ ["-filter_complex", "[0:v]" ++ sf ++ "[v]",
                    "-map", "[v]", "-map", "1:a?"])
    else
      pure (cmd ++ ["-map", "0:v", "-map", "1:a?"])
  let cmd := cmd ++ ["-c:v", video_codec, "-c:a", "aac"]
  let qf ← quality_flags video_codec quality
  let cmd := cmd ++ qf
  let cmd := cmd ++ ["-progress", "pipe:1", "-nostats"]
  let cmd := if 0 < duration_sec then cmd ++ ["-t", pyNumStr duration_sec] else cmd
  pure (cmd ++ [output_path])

/-- Embedding of `FFmpegBuilder.build_preview_command`. -/
def build_preview_command (input_video safe_sub_path output_path : String)
    (time_sec : ℚ) (sub_styles : String) (bg_hex : String := "00FF00")
    (resolution : String := "1920x1080") : Except PyErr (List String) := do
  let bg_color := String.mk (bg_hex.data.dropWhile (fun c => c = '#'))
  let (w, h) ← parseResolution resolution
  let w := evenUp w
  let h := evenUp h
  let res_str := intRepr w ++ "x" ++ intRepr h
  let cmd := ["ffmpeg", "-y", "-ss", pyNumStr (max 0 time_sec), "-f", "lavfi",
              "-i", "color=c=#" ++ bg_color ++ ":s=" ++ res_str ++ ":r=25"]
  let cmd ←
    if safe_sub_path ≠ "" then do
      let sf ← build_subtitle_filter safe_sub_path sub_styles
      pure (cmd ++ ["-filter_complex", "[0:v]" ++ sf ++ "[v]", "-map", "[v]"])
    else
      pure (cmd ++ ["-map", "0:v"])
  pure (cmd ++ ["-frames:v", "1", "-q:v", "1", "-f", "image2", output_path])

/-! ## `core/ffmpeg_runner.py` -/

/-- Embedding of `RenderResult`. -/
structure RenderResult where
  success : Bool
  output_path : String
  duration_sec : ℚ := 0
  error_message : String := ""
  deriving Repr, DecidableEq

/-- The characters after the first `=` of a line: embedding of
`line.split("=", 1)[1]` when a `=` is present (the only use is guarded
by a `startswith` check that guarantees one). -/
def afterFirstEq (l : List Char) : List Char :=
  (l.dropWhile (fun c => c ≠ '=')).drop 1

/-- The progress interpretation of one stdout line inside
`FFmpegRunner.run_command`: when the expected duration is positive and
the line starts with `out_time_ms=`, parse the value after `=`
(stripped) as an integer; non-negative values report
`min((v / 1_000_000) / total * 100, 100)`, everything else reports
nothing (`int()` failures are swallowed by the `try/except`). -/
def progressOfLine (line : String) (total_duration_sec : ℚ) : Option ℚ :=
  if 0 < total_duration_sec then
    if leadsWith "out_time_ms=".data line.data then
      let raw := String.mk (pyStripL (afterFirstEq line.data))
      match pyInt raw with
      | some current_us =>
        if 0 ≤ current_us then
          let current_sec : ℚ := (current_us : ℚ) / 1000000
          some (min (current_sec / total_duration_sec * 100) 100)
        else none
      | none => none
    else none
  else none

/-- Abstract outcome of the subprocess machinery inside
`run_command`: the `Popen` call can raise `FileNotFoundError`
(missing binary), any other exception can surface (`execError` carries
`str(e)`), or the process runs and yields its stdout lines, return
code, stderr lines and a measured wall-clock time.  Cancellation is a
concurrent interaction and is modelled as not requested. -/
inductive ExecOutcome where
  | startFailure
  | execError (msg : String)
  | run (stdoutLines : List String) (returncode : ℤ)
        (stderrLines : List String) (elapsed : ℚ)

/-- Embedding of `FFmpegRunner.run_command`: returns the
`RenderResult` together with the list of progress percentages
delivered to the callback, in stream order. -/
def run_command (cmd : List String) (total_duration_sec : ℚ)
    (outcome : ExecOutcome) : RenderResult × List ℚ :=
  match outcome with
  | .startFailure =>
    ({ success := false, output_path := "", duration_sec := 0,
       error_message := "FFmpeg binary not found. Is it installed?" }, [])
  | .execError m =>
    ({ success := false, output_path := "", duration_sec := 0,
       error_message := "Runner exception: " ++ m }, [])
  | .run stdoutLines returncode stderrLines elapsed =>
    let progress := stdoutLines.filterMap (fun l => progressOfLine l total_duration_sec)
    if returncode ≠ 0 then
      let err_text := String.join (stderrLines.drop (stderrLines.length - 40))
      ({ success := false, output_path := "", duration_sec := 0,
         error_message := "FFmpeg Error (code " ++ intRepr returncode ++ "):\n" ++ err_text },
       progress)
    else
      ({ success := true, output_path := (cmd.getLast?).getD "unknown_output",
         duration_sec := elapsed, error_message := "" }, progress)

/-! ## `core/subtitle_manager.py` -/

/-- Embedding of `SubtitleManager._tc_to_ms`: the fractional field is
right-padded to 3 digits, the `int()` conversions may in principle
raise `ValueError` (they never do on regex-produced digit groups). -/
def tc_to_ms (h m s ms_str : String) : Except PyErr ℤ := do
  let ms ← pyIntE (ljust ms_str 3 '0')
  let hv ← pyIntE h
  let mv ← pyIntE m
  let sv ← pyIntE s
  pure ((hv * 3600 + mv * 60 + sv) * 1000 + ms)

/-- Embedding of `SubtitleManager._ms_to_srt_tc`: successive `divmod`s
(Python floor division, which agrees with Lean's `/`/`%` on `ℤ` for
these positive divisors) and `HH:MM:SS,mmm` zero-padded formatting. -/
def ms_to_srt_tc (ms : ℤ) : String :=
  let h := ms / 3600000
  let rem := ms % 3600000
  let m := rem / 60000
  let rem2 := rem % 60000
  let s := rem2 / 1000
  let ms_part := rem2 % 1000
  intPad 2 h ++ ":" ++ intPad 2 m ++ ":" ++ intPad 2 s ++ "," ++ intPad 3 ms_part

/-- The eight capture groups of `SubtitleManager._TC_RE`. -/
structure TcGroups where
  sh : String
  sm : String
  ss : String
  sf : String
  eh : String
  em : String
  es : String
  ef : String
  deriving Repr, DecidableEq

/-- Matcher for `(\d{1,2}):` — a 1- or 2-digit run followed by `:`
(regex backtracking collapses to this run-length condition because a
digit can never match `:`). -/
def matchField12 (l : List Char) : Option (List Char × List Char) :=
  let run := l.takeWhile Char.isDigit
  if run.length = 1 ∨ run.length = 2 then
    match l.drop run.length with
    | ':' :: rest => some (run, rest)
    | _ => none
  else none

/-- Matcher for `(\d{2})` — exactly two digit characters. -/
def matchField2 (l : List Char) : Option (List Char × List Char) :=
  match l with
  | a :: b :: rest => if a.isDigit ∧ b.isDigit then some ([a, b], rest) else none
  | _ => none

/-- Matcher for a single expected character. -/
def expectChar (c : Char) (l : List Char) : Option (List Char) :=
  match l with
  | x :: rest => if x = c then some rest else none
  | [] => none

/-- Matcher for the `[,.]` millisecond separator. -/
def expectSep (l : List Char) : Option (List Char) :=
  match l with
  | x :: rest => if x = ',' ∨ x = '.' then some rest else none
  | [] => none

/-- Matcher for `(\d{1,3})\s*-->\s*`: a 1–3 digit run (a longer run
cannot match, because the leftover digit matches neither `\s` nor `-`),
then the arrow with surrounding whitespace. -/
def matchFracArrow (l : List Char) : Option (List Char × List Char) :=
  let run := l.takeWhile Char.isDigit
  if 1 ≤ run.length ∧ run.length ≤ 3 then
    let rest := (l.drop run.length).dropWhile pySpace
    if leadsWith "-->".data rest then
      some (run, (rest.drop 3).dropWhile pySpace)
    else none
  else none

/-- Matcher for the final `(\d{1,3})` at the end of the pattern: the
greedy quantifier takes at most three digits of the run. -/
def matchFracEnd (l : List Char) : Option (List Char) :=
  let run := l.takeWhile Char.isDigit
  if run.length = 0 then none else some (run.take 3)

/-- Attempt to match `SubtitleManager._TC_RE` at the head of `l`. -/
def matchTcAt (l : List Char) : Option TcGroups := do
  let (h1, l) ← matchField12 l
  let (m1, l) ← matchField2 l
  let l ← expectChar ':' l
  let (s1, l) ← matchField2 l
  let l ← expectSep l
  let (f1, l) ← matchFracArrow l
  let (h2, l) ← matchField12 l
  let (m2, l) ← matchField2 l
  let l ← expectChar ':' l
  let (s2, l) ← matchField2 l
  let l ← expectSep l
  let f2 ← matchFracEnd l
  pure { sh := String.mk h1, sm := String.mk m1, ss := String.mk s1, sf := String.mk f1,
         eh := String.mk h2, em := String.mk m2, es := String.mk s2, ef := String.mk f2 }

/-- Embedding of `_TC_RE.search`: try the pattern at every position,
leftmost match wins. -/
def searchTc (l : List Char) : Option TcGroups :=
  match matchTcAt l with
  | some g => some g
  | none =>
    match l with
    | [] => none
    | _ :: rest => searchTc rest

/-- Embedding of Python `str.isdigit()` (ASCII digits). -/
def pyIsDigit (s : String) : Bool :=
  s.data ≠ [] && s.data.all Char.isDigit

/-- Embedding of `str.replace('\r\n', '\n')` (left-to-right,
non-overlapping). -/
def replCRLF : List Char → List Char
  | '\r' :: '\n' :: rest => '\n' :: replCRLF rest
  | c :: rest => c :: replCRLF rest
  | [] => []

/-- Embedding of `str.replace('\r', '\n')`. -/
def replCR (l : List Char) : List Char :=
  replaceChar '\r' ['\n'] l

/-- The inner text-collection loop of `_normalise_srt`: gather lines
until a blank line or a line that is a cue number followed by a
timecode line; returns the collected text and the unconsumed rest. -/
def collectText : List String → List String × List String
  | [] => ([], [])
  | l :: rest =>
    if pyStrip l = "" then ([], l :: rest)
    else if pyIsDigit (pyStrip l) &&
            (match rest with
             | nxt :: _ => (searchTc nxt.data).isSome
             | [] => false) then
      ([], l :: rest)
    else
      let (t, r) := collectText rest
      (l :: t, r)

/-- The cue loop of `_normalise_srt`, one outer-`while` iteration per
recursive step.  `fuel` bounds the recursion; every step consumes at
least one line, so `fuel = lines.length + 1` (as supplied by
`normalise_srt`) never runs out. -/
def normLoop (fuel : ℕ) (ls : List String) (cueIndex : ℕ) :
    Except PyErr (List String) :=
  match fuel with
  | 0 => .ok []
  | fuel + 1 =>
    match ls with
    | [] => .ok []
    | line :: rest =>
      if pyStrip line = "" then normLoop fuel rest cueIndex
      else
        let step : Option (String × List String) :=
          if pyIsDigit (pyStrip line) then
            match rest with
            | [] => none
            | tcl :: rest2 => some (tcl, rest2)
          else some (line, rest)
        match step with
        | none => .ok []
        | some (tcl, rest2) =>
          match searchTc (pyStrip tcl).data with
          | none => normLoop fuel rest2 cueIndex
          | some g => do
            let start_ms ← tc_to_ms g.sh g.sm g.ss g.sf
            let end_ms ← tc_to_ms g.eh g.em g.es g.ef
            let (textLines, rest3) := collectText rest2
            let textLines := if textLines = [] then [""] else textLines
            let tc_out := ms_to_srt_tc start_ms ++ " --> " ++ ms_to_srt_tc end_ms
            let block := decRepr (cueIndex + 1) ++ "\n" ++ tc_out ++ "\n" ++
                         String.intercalate "\n" textLines
            let blocks ← normLoop fuel rest3 (cueIndex + 1)
            pure (block :: blocks)

/-- Embedding of `SubtitleManager._normalise_srt`: unify line endings,
strip, repair every cue (re-padded fractional fields, canonical
timecodes, sequential renumbering), join blocks with blank lines and a
trailing newline. -/
def normalise_srt (content : String) : Except PyErr String := do
  let content := pyStrip (String.mk (replCR (replCRLF content.data)))
  let lines := splitChar '\n' content
  let blocks ← normLoop (lines.length + 1) lines 0
  pure (String.intercalate "\n\n" blocks ++ "\n")

/-- Embedding of `os.path.splitext(p)[1]`: the extension (with dot) of
the final path component, where leading dots of the component do not
start an extension. -/
def splitextExt (p : String) : String :=
  let base := ((splitCharL '/' p.data).getLastD [])
  let rest := base.dropWhile (fun c => c = '.')
  if rest.any (fun c => c = '.') then
    String.mk ('.' :: (rest.reverse.takeWhile (fun c => c ≠ '.')).reverse)
  else ""

/-- Environment abstracting the file system and `uuid` for
`create_safe_copy`: whether a path exists, the generated hex name and
the temporary directory. -/
structure SafeCopyEnv where
  fsExists : String → Bool
  uuidHex : String
  tmpDir : String

/-- Embedding of `SubtitleManager.create_safe_copy` (path logic only;
reading, re-encoding and writing of the content are I/O effects outside
the claims, abstracted away).  An empty (`None`) or non-existing path
raises `FileNotFoundError` before anything else happens; otherwise the
safe path `<tmp>/sub_<uuid><ext>` is returned, with the extension
constrained to the allow-list. -/
def create_safe_copy (env : SafeCopyEnv) (original_path : String) :
    Except PyErr String :=
  if original_path = "" ∨ ¬env.fsExists original_path then
    .error (.fileNotFoundError ("Subtitle file not found: " ++ original_path))
  else
    let ext0 := pyLower (splitextExt original_path)
    let ext := if ext0 = ".srt" ∨ ext0 = ".ass" ∨ ext0 = ".vtt" then ext0 else ".srt"
    .ok (env.tmpDir ++ "/sub_" ++ env.uuidHex ++ ext)

/-! ## `core/job_queue.py` -/

/-- A queued job's parameters (the `dict` built by `JobQueue.add_job`);
an absent subtitle is the empty string. -/
structure Job where
  input : String
  subtitle : String
  output : String
  bg_color : String
  styles : String
  duration : ℚ
  codec : String := "libx264"
  quality : String := "Medium"
  resolution : String := "1920x1080"

/-- Terminal and intermediate job states. -/
inductive JobState where
  | pending | running | completed | failed | cancelled
  deriving Repr, DecidableEq

/-- Embedding of one iteration of `JobQueue._process_queue` on a
popped job: obtain the safe subtitle copy, build the burn command, run
it, and map the outcome to a terminal state; any exception on the way
is caught and reported as a failure callback `(-1, str(e))`.  Returns
the terminal state together with the list of `(value, message)`
callback invocations in order. -/
def process_job (env : SafeCopyEnv) (outcome : ExecOutcome) (job : Job) :
    JobState × List (ℚ × String) :=
  match create_safe_copy env job.subtitle with
  | .error e => (.failed, [(-1, pyErrStr e)])
  | .ok temp_sub =>
    match build_burn_command job.input temp_sub job.output job.bg_color job.styles
        job.codec job.duration job.quality job.resolution with
    | .error e => (.failed, [(-1, pyErrStr e)])
    | .ok cmd =>
      let (res, progress) := run_command cmd job.duration outcome
      let progressCbs := progress.map (fun p => (p, ""))
      if res.success then
        (.completed, progressCbs ++ [(101, "Success")])
      else
        ((if containsSeq "cancelled".data (pyLower res.error_message).data
          then JobState.cancelled else JobState.failed),
         progressCbs ++ [(-1, res.error_message)])

/-- Hexadecimal digit characters (for stating the colour claims). -/
def isHexChar (c : Char) : Bool :=
  c.isDigit ∨ ('A' ≤ c ∧ c ≤ 'F') ∨ ('a' ≤ c ∧ c ≤ 'f')

/-! ## Infrastructure lemmas -/

theorem digitsVal_append (l : List Char) (c : Char) :
    digitsVal (l ++ [c]) = 10 * digitsVal l + digitVal c := by
  simp [digitsVal, List.foldl_append]

theorem decDigitsAux_congr (fuel1 : ℕ) :
    ∀ fuel2 n, n < fuel1 → n < fuel2 →
      decDigitsAux fuel1 n = decDigitsAux fuel2 n := by
  induction fuel1 with
  | zero => omega
  | succ f ih =>
    intro fuel2 n h1 h2
    cases fuel2 with
    | zero => omega
    | succ f2 =>
      by_cases hn : n < 10
      · simp [decDigitsAux, hn]
      · simp only [decDigitsAux, if_neg hn]
        congr 1
        have hd : n / 10 < n := Nat.div_lt_self (by omega) (by omega)
        exact ih f2 (n / 10) (by omega) (by omega)

theorem decDigits_step (n : ℕ) :
    decDigits n = if n < 10 then [decChar n]
                  else decDigits (n / 10) ++ [decChar (n % 10)] := by
  by_cases hn : n < 10
  · simp [decDigits, decDigitsAux, hn]
  · have hd : n / 10 < n := Nat.div_lt_self (by omega) (by omega)
    rw [if_neg hn]
    show (if n < 10 then [decChar n]
          else decDigitsAux n (n / 10) ++ [decChar (n % 10)]) =
         decDigitsAux (n / 10 + 1) (n / 10) ++ [decChar (n % 10)]
    rw [if_neg hn]
    congr 1
    exact decDigitsAux_congr n (n / 10 + 1) (n / 10) (by omega) (by omega)

theorem hexDigitsAux_congr (fuel1 : ℕ) :
    ∀ fuel2 n, n < fuel1 → n < fuel2 →
      hexDigitsAux fuel1 n = hexDigitsAux fuel2 n := by
  induction fuel1 with
  | zero => omega
  | succ f ih =>
    intro fuel2 n h1 h2
    cases fuel2 with
    | zero => omega
    | succ f2 =>
      by_cases hn : n < 16
      · simp [hexDigitsAux, hn]
      · simp only [hexDigitsAux, if_neg hn]
        congr 1
        have hd : n / 16 < n := Nat.div_lt_self (by omega) (by omega)
        exact ih f2 (n / 16) (by omega) (by omega)

theorem hexDigits_step (n : ℕ) :
    hexDigits n = if n < 16 then [hexChar n]
                  else hexDigits (n / 16) ++ [hexChar (n % 16)] := by
  by_cases hn : n < 16
  · simp [hexDigits, hexDigitsAux, hn]
  · have hd : n / 16 < n := Nat.div_lt_self (by omega) (by omega)
    rw [if_neg hn]
    show (if n < 16 then [hexChar n]
          else hexDigitsAux n (n / 16) ++ [hexChar (n % 16)]) =
         hexDigitsAux (n / 16 + 1) (n / 16) ++ [hexChar (n % 16)]
    rw [if_neg hn]
    congr 1
    exact hexDigitsAux_congr n (n / 16 + 1) (n / 16) (by omega) (by omega)

theorem decChar_isDigit (d : ℕ) : (decChar d).isDigit = true := by
  unfold decChar; split <;> decide

theorem digitVal_decChar (d : ℕ) (h : d < 10) : digitVal (decChar d) = d := by
  interval_cases d <;> decide

theorem decDigits_all_digit (n : ℕ) :
    ∀ c ∈ decDigits n, c.isDigit = true := by
  induction n using Nat.strong_induction_on with
  | _ n ih =>
    rw [decDigits_step]
    split
    · simp only [List.mem_singleton]
      rintro c rfl; exact decChar_isDigit n
    · intro c hc
      rcases List.mem_append.1 hc with h | h
      · exact ih _ (Nat.div_lt_self (by omega) (by omega)) c h
      · simp only [List.mem_singleton] at h
        subst h; exact decChar_isDigit _

theorem decDigits_ne_nil (n : ℕ) : decDigits n ≠ [] := by
  rw [decDigits_step]; split <;> simp

theorem digitsVal_decDigits (n : ℕ) : digitsVal (decDigits n) = n := by
  induction n using Nat.strong_induction_on with
  | _ n ih =>
    rw [decDigits_step]
    split
    · next h =>
      show digitsVal [decChar n] = n
      simp [digitsVal, digitVal_decChar n h]
    · next h =>
      rw [digitsVal_append, ih _ (Nat.div_lt_self (by omega) (by omega)),
          digitVal_decChar _ (Nat.mod_lt _ (by omega))]
      omega

theorem decDigits_length_le (k n : ℕ) (h : n < 10 ^ (k + 1)) :
    (decDigits n).length ≤ k + 1 := by
  induction k generalizing n with
  | zero =>
    rw [decDigits_step]
    split
    · simp
    · next hn => norm_num at h; omega
  | succ k ih =>
    rw [decDigits_step]
    split
    · simp
    · next hn =>
      rw [List.length_append]
      have hdiv : n / 10 < 10 ^ (k + 1) := by
        rw [Nat.div_lt_iff_lt_mul (by norm_num)]
        have hpow : (10 : ℕ) ^ (k + 1) * 10 = 10 ^ (k + 2) := by ring
        omega
      have := ih (n / 10) hdiv
      simp only [List.length_singleton]
      omega

theorem digitsVal_cons_zero (l : List Char) :
    digitsVal ('0' :: l) = digitsVal l := by
  simp [digitsVal]; rfl

theorem digitsVal_zeros (k : ℕ) (l : List Char) :
    digitsVal (List.replicate k '0' ++ l) = digitsVal l := by
  induction k with
  | zero => rfl
  | succ k ih => rw [List.replicate_succ, List.cons_append, digitsVal_cons_zero, ih]

theorem pySpace_of_digit (c : Char) (h : c.isDigit = true) : pySpace c = false := by
  simp only [pySpace, decide_eq_false_iff_not]
  rintro (rfl | rfl | rfl | rfl | rfl | rfl) <;> exact absurd h (by decide)

theorem dropWhile_all_false (p : Char → Bool) (l : List Char)
    (h : ∀ c ∈ l, p c = false) : l.dropWhile p = l := by
  cases l with
  | nil => rfl
  | cons c rest =>
    simp [List.dropWhile_cons, h c (by simp)]

theorem pyStripL_all_nonspace (l : List Char)
    (h : ∀ c ∈ l, pySpace c = false) : pyStripL l = l := by
  unfold pyStripL
  rw [dropWhile_all_false _ _ h,
      dropWhile_all_false _ _ (fun c hc => h c (List.mem_reverse.1 hc)),
      List.reverse_reverse]

theorem intBodyRest_of_digits (l : List Char)
    (h : ∀ c ∈ l, c.isDigit = true) : intBodyRest l = true := by
  induction l with
  | nil => rfl
  | cons c rest ih =>
    have hc : c.isDigit = true := h c (by simp)
    have hne : c ≠ '_' := by rintro rfl; simp at hc
    have ih2 := ih (fun x hx => h x (by simp [hx]))
    cases rest with
    | nil =>
      show (if c = '_' then false else c.isDigit && intBodyRest []) = true
      rw [if_neg hne, hc]
      rfl
    | cons c2 rest2 =>
      show (if c = '_' then c2.isDigit && intBodyRest rest2
            else c.isDigit && intBodyRest (c2 :: rest2)) = true
      rw [if_neg hne, hc, ih2]
      rfl

theorem intBody_of_digits (l : List Char) (hne : l ≠ [])
    (h : ∀ c ∈ l, c.isDigit = true) : intBody l = true := by
  cases l with
  | nil => exact absurd rfl hne
  | cons c rest =>
    simp only [intBody, h c (by simp),
      intBodyRest_of_digits rest (fun x hx => h x (by simp [hx])), Bool.and_self]

theorem intBodyVal_of_digits (l : List Char)
    (h : ∀ c ∈ l, c.isDigit = true) : intBodyVal l = digitsVal l := by
  unfold intBodyVal
  congr 1
  apply List.filter_eq_self.2
  intro a ha
  have : a.isDigit = true := h a ha
  simp only [ne_eq, decide_eq_true_eq]
  rintro rfl; simp at this

theorem pyInt_of_digits (l : List Char) (hne : l ≠ [])
    (h : ∀ c ∈ l, c.isDigit = true) :
    pyInt (String.mk l) = some ((digitsVal l : ℤ)) := by
  show pyIntL (pyStripL l) = some ((digitsVal l : ℤ))
  rw [pyStripL_all_nonspace l (fun c hc => pySpace_of_digit c (h c hc))]
  cases l with
  | nil => exact absurd rfl hne
  | cons c rest =>
    have hc : c.isDigit = true := h c (by simp)
    have h1 : c ≠ '+' := by rintro rfl; simp at hc
    have h2 : c ≠ '-' := by rintro rfl; simp at hc
    rw [pyIntL, if_neg h1, if_neg h2, if_pos (intBody_of_digits _ (by simp) h),
      intBodyVal_of_digits _ h]

theorem pyInt_decRepr (n : ℕ) : pyInt (decRepr n) = some (n : ℤ) := by
  rw [decRepr, pyInt_of_digits _ (decDigits_ne_nil n) (decDigits_all_digit n),
      digitsVal_decDigits]

theorem pyInt_padZero (w n : ℕ) :
    pyInt (String.mk (padZeroLeft w (decDigits n))) = some (n : ℤ) := by
  rw [padZeroLeft, pyInt_of_digits _ (by simp [decDigits_ne_nil n])
      (by
        intro c hc
        rcases List.mem_append.1 hc with h | h
        · rw [List.eq_of_mem_replicate h]; decide
        · exact decDigits_all_digit n c h),
      digitsVal_zeros, digitsVal_decDigits]

/-! ## Claim theorems -/

/-- C2: refutation/analysis of the quality fallback.  For the two
software codecs (`libx264`, `libx265`) an unknown quality name does
not fall back to `Medium`: the preset dictionary lookup raises
`KeyError`, so the call fails.  The fallback only takes effect on the
hardware-encoder paths and on unrecognized codec names, where the
flags equal the `Medium` flags. -/
theorem quality_flags_unknown_quality :
    quality_flags "libx264" "Ultra" = .error (.keyError "Ultra") ∧
    quality_flags "libx265" "Ultra" = .error (.keyError "Ultra") ∧
    quality_flags "h264_videotoolbox" "Ultra" =
      quality_flags "h264_videotoolbox" "Medium" ∧
    quality_flags "hevc_videotoolbox" "Ultra" =
      quality_flags "hevc_videotoolbox" "Medium" ∧
    quality_flags "mpeg4" "Ultra" = quality_flags "mpeg4" "Medium" ∧
    quality_flags "libx264" "Medium" = .ok ["-crf", "20", "-preset", "medium", "-b:a", "192k"] :=
  ⟨rfl, rfl, rfl, rfl, rfl, rfl⟩

/-- C10: a recognized integer style key with a non-integer value makes
style parsing — and hence filter construction — raise `ValueError`
(neither ignored nor replaced by the default). -/
theorem parse_styles_valueerror_on_bad_int :
    parse_styles "FontSize=abc" =
      .error (.valueError "invalid literal for int() with base 10: 'abc'") ∧
    build_subtitle_filter "/tmp/sub.srt" "FontSize=abc" =
      .error (.valueError "invalid literal for int() with base 10: 'abc'") :=
  ⟨rfl, rfl⟩

/-- C9: `run_command` never lets an exception escape.  A failure to
start the process returns the distinct binary-not-found result (with
`success = false` and a message indicating the binary was not found,
and no progress callbacks), and any other unexpected exception is
returned as a generic runner failure carrying the exception's
message. -/
theorem run_command_never_raises (cmd : List String) (dur : ℚ) (m : String) :
    run_command cmd dur .startFailure =
      ({ success := false, output_path := "", duration_sec := 0,
         error_message := "FFmpeg binary not found. Is it installed?" }, []) ∧
    containsSeq "not found".data
      (run_command cmd dur .startFailure).1.error_message.data = true ∧
    run_command cmd dur (.execError m) =
      ({ success := false, output_path := "", duration_sec := 0,
         error_message := "Runner exception: " ++ m }, []) :=
  ⟨rfl, rfl, rfl⟩

/-- C1: refutation of the skip-safe-copy claim.  A job whose subtitle
path is empty (no subtitle provided) is not skipped past the
safe-copy step: `create_safe_copy` raises `FileNotFoundError` before
the command is ever built or executed, the job ends `failed`, and the
only callback is the error sentinel — independent of what the process
runner would have done (the runner outcome is never consulted). -/
theorem process_job_empty_subtitle_fails (outcome : ExecOutcome) :
    process_job { fsExists := fun _ => true, uuidHex := "abcdef0123456789", tmpDir := "/tmp" }
      outcome
      { input := "in.mp4", subtitle := "", output := "out.mp4",
        bg_color := "00FF00", styles := "FontSize=40", duration := 12 } =
      (.failed, [(-1, "Subtitle file not found: ")]) :=
  rfl

theorem splitCharL_not_mem (sep : Char) (l : List Char) (h : sep ∉ l) :
    splitCharL sep l = [l] := by
  induction l with
  | nil => rfl
  | cons c rest ih =>
    have hc : c ≠ sep := by rintro rfl; exact h (by simp)
    have ih2 := ih (fun hm => h (by simp [hm]))
    simp [splitCharL, if_neg hc, ih2]

theorem splitCharL_append (sep : Char) (a b : List Char) (h : sep ∉ a) :
    splitCharL sep (a ++ sep :: b) = a :: splitCharL sep b := by
  induction a with
  | nil => simp [splitCharL]
  | cons c a2 ih =>
    have hc : c ≠ sep := by rintro rfl; exact h (by simp)
    have ih2 := ih (fun hm => h (by simp [hm]))
    simp [splitCharL, if_neg hc, ih2]

theorem exceptBind_ok {ε α β : Type} (a : α) (f : α → Except ε β) :
    (Except.ok a : Except ε α) >>= f = f a := rfl

theorem exceptBind_err {ε α β : Type} (e : ε) (f : α → Except ε β) :
    (Except.error e : Except ε α) >>= f = .error e := rfl

theorem exceptMap_ok {ε α β : Type} (a : α) (f : α → β) :
    f <$> (Except.ok a : Except ε α) = .ok (f a) := rfl

theorem pyIntE_mk_decDigits (n : ℕ) :
    pyIntE (String.mk (decDigits n)) = .ok (n : ℤ) := by
  unfold pyIntE
  rw [show String.mk (decDigits n) = decRepr n from rfl, pyInt_decRepr]

theorem not_mem_decDigits_x (n : ℕ) : 'x' ∉ decDigits n := by
  intro hmem
  exact absurd (decDigits_all_digit n 'x' hmem) (by decide)

theorem parseResolution_decRepr (w h : ℕ) :
    parseResolution (decRepr w ++ "x" ++ decRepr h) = .ok ((w : ℤ), (h : ℤ)) := by
  have hdata : (decRepr w ++ "x" ++ decRepr h).data = decDigits w ++ 'x' :: decDigits h := by
    simp [decRepr, String.data_append]
  unfold parseResolution splitChar
  rw [hdata, splitCharL_append _ _ _ (not_mem_decDigits_x w),
      splitCharL_not_mem _ _ (not_mem_decDigits_x h)]
  simp [pyIntE_mk_decDigits, exceptBind_ok, exceptMap_ok]

/-- C8: the resolution used in the synthesized commands rounds each
dimension up to the next even integer (`w += w % 2`), leaving even
values unchanged, and the corrected resolution string appears in the
background-source argument of both the render and the preview
command. -/
theorem resolution_rounds_up_to_even :
    (∀ n : ℤ, 2 ∣ evenUp n ∧ n ≤ evenUp n ∧ evenUp n ≤ n + 1 ∧ (2 ∣ n → evenUp n = n)) ∧
    (∀ (w h : ℕ) (iv sp op bg ss vc q : String) (d : ℚ) (cmd : List String),
      build_burn_command iv sp op bg ss vc d q (decRepr w ++ "x" ++ decRepr h) = .ok cmd →
      ("color=c=#" ++ String.mk (bg.data.dropWhile (fun c => c = '#')) ++ ":s=" ++
        (intRepr (evenUp w) ++ "x" ++ intRepr (evenUp h)) ++ ":r=25") ∈ cmd) ∧
    (∀ (w h : ℕ) (iv sp op bg ss : String) (t : ℚ) (cmd : List String),
      build_preview_command iv sp op t ss bg (decRepr w ++ "x" ++ decRepr h) = .ok cmd →
      ("color=c=#" ++ String.mk (bg.data.dropWhile (fun c => c = '#')) ++ ":s=" ++
        (intRepr (evenUp w) ++ "x" ++ intRepr (evenUp h)) ++ ":r=25") ∈ cmd) := by
  refine ⟨fun n => by unfold evenUp; omega, ?_, ?_⟩
  · intro w h iv sp op bg ss vc q d cmd hcmd
    unfold build_burn_command at hcmd
    rw [parseResolution_decRepr] at hcmd
    simp only [exceptBind_ok] at hcmd
    split at hcmd
    · cases hsf : build_subtitle_filter sp ss with
      | error e => rw [hsf] at hcmd; simp [exceptBind_err] at hcmd
      | ok sf =>
        rw [hsf] at hcmd
        simp only [exceptBind_ok] at hcmd
        cases hqf : quality_flags vc q with
        | error e => rw [hqf] at hcmd; simp [exceptBind_err] at hcmd
        | ok qf =>
          rw [hqf] at hcmd
          simp only [exceptBind_ok] at hcmd
          injection hcmd with heq
          subst heq
          simp only [List.mem_append, List.mem_cons]
          split <;> simp
    · cases hqf : quality_flags vc q with
      | error e => rw [hqf] at hcmd; simp [exceptBind_err] at hcmd
      | ok qf =>
        rw [hqf] at hcmd
        simp only [exceptBind_ok] at hcmd
        injection hcmd with heq
        subst heq
        simp only [List.mem_append, List.mem_cons]
        split <;> simp
  · intro w h iv sp op bg ss t cmd hcmd
    unfold build_preview_command at hcmd
    rw [parseResolution_decRepr] at hcmd
    simp only [exceptBind_ok] at hcmd
    split at hcmd
    · cases hsf : build_subtitle_filter sp ss with
      | error e => rw [hsf] at hcmd; simp [exceptBind_err] at hcmd
      | ok sf =>
        rw [hsf] at hcmd
        simp only [exceptBind_ok] at hcmd
        injection hcmd with heq
        subst heq
        simp
    · injection hcmd with heq
      subst heq
      simp

/-- C8 witness: width 1921 and height 1079 yield the corrected
resolution 1922x1080 in both commands. -/
theorem resolution_rounds_up_to_even_witness :
    build_burn_command "in.mp4" "" "out.mp4" "00FF00" "" "libx264" 0 "Medium" "1921x1079" =
      .ok ["ffmpeg", "-y", "-f", "lavfi", "-i", "color=c=#00FF00:s=1922x1080:r=25",
           "-i", "in.mp4", "-map", "0:v", "-map", "1:a?", "-c:v", "libx264", "-c:a", "aac",
           "-crf", "20", "-preset", "medium", "-b:a", "192k",
           "-progress", "pipe:1", "-nostats", "out.mp4"] ∧
    "color=c=#00FF00:s=1922x1080:r=25" ∈
      ["ffmpeg", "-y", "-f", "lavfi", "-i", "color=c=#00FF00:s=1922x1080:r=25",
       "-i", "in.mp4", "-map", "0:v", "-map", "1:a?", "-c:v", "libx264", "-c:a", "aac",
       "-crf", "20", "-preset", "medium", "-b:a", "192k",
       "-progress", "pipe:1", "-nostats", "out.mp4"] ∧
    build_preview_command "in.mp4" "" "prev.jpg" 0 "" "00FF00" "1921x1079" =
      .ok ["ffmpeg", "-y", "-ss", "0.0", "-f", "lavfi", "-i", "color=c=#00FF00:s=1922x1080:r=25",
           "-map", "0:v", "-frames:v", "1", "-q:v", "1", "-f", "image2", "prev.jpg"] ∧
    "color=c=#00FF00:s=1922x1080:r=25" ∈
      ["ffmpeg", "-y", "-ss", "0.0", "-f", "lavfi", "-i", "color=c=#00FF00:s=1922x1080:r=25",
       "-map", "0:v", "-frames:v", "1", "-q:v", "1", "-f", "image2", "prev.jpg"] := by
  refine ⟨rfl, ?_, rfl, ?_⟩
  · exact resolution_rounds_up_to_even.2.1 1921 1079 "in.mp4" "" "out.mp4" "00FF00" ""
      "libx264" "Medium" 0 _ rfl
  · exact resolution_rounds_up_to_even.2.2 1921 1079 "in.mp4" "" "prev.jpg" "00FF00" "" 0 _ rfl

theorem leadsWith_append (p x : List Char) : leadsWith p (p ++ x) = true := by
  induction p with
  | nil => rfl
  | cons c rest ih => simp [leadsWith, ih]

theorem progressOfLine_outtime (s : String) (dur : ℚ) :
    progressOfLine ("out_time_ms=" ++ s) dur =
      if 0 < dur then
        match pyInt (pyStrip s) with
        | some v => if 0 ≤ v then some (min ((v : ℚ) / 1000000 / dur * 100) 100) else none
        | none => none
      else none := by
  unfold progressOfLine
  by_cases hdur : 0 < dur
  · rw [if_pos hdur, if_pos hdur,
      if_pos (by rw [String.data_append]; exact leadsWith_append _ _)]
    rfl
  · rw [if_neg hdur, if_neg hdur]

theorem pyStrip_decRepr (u : ℕ) : pyStrip (decRepr u) = decRepr u := by
  unfold pyStrip decRepr
  rw [pyStripL_all_nonspace _
    (fun c hc => pySpace_of_digit c (decDigits_all_digit u c hc))]

/-- C3: during `run_command` the progress callbacks are exactly the
successfully parsed `out_time_ms=` lines; the value is a microsecond
count reported as `min(100, elapsed_sec / duration * 100)`; malformed
or negative values produce no callback; and a non-positive expected
duration suppresses progress entirely. -/
theorem run_command_progress_interpretation :
    (∀ (cmd : List String) (dur : ℚ) (lines : List String) (rc : ℤ)
        (errs : List String) (e : ℚ),
      (run_command cmd dur (.run lines rc errs e)).2 =
        lines.filterMap (fun l => progressOfLine l dur)) ∧
    (∀ (u : ℕ) (dur : ℚ), 0 < dur →
      progressOfLine ("out_time_ms=" ++ decRepr u) dur =
        some (min ((u : ℚ) / 1000000 / dur * 100) 100)) ∧
    (∀ (dur : ℚ) (s : String), pyInt (pyStrip s) = none →
      progressOfLine ("out_time_ms=" ++ s) dur = none) ∧
    (∀ (dur : ℚ) (s : String) (v : ℤ), pyInt (pyStrip s) = some v → v < 0 →
      progressOfLine ("out_time_ms=" ++ s) dur = none) ∧
    (∀ (line : String) (dur : ℚ), dur ≤ 0 → progressOfLine line dur = none) := by
  refine ⟨?_, ?_, ?_, ?_, ?_⟩
  · intro cmd dur lines rc errs e
    dsimp only [run_command]
    split <;> rfl
  · intro u dur hdur
    rw [progressOfLine_outtime, if_pos hdur, pyStrip_decRepr, pyInt_decRepr]
    rw [show (match (some (u : ℤ) : Option ℤ) with
          | some v => if 0 ≤ v then some (min ((v : ℚ) / 1000000 / dur * 100) 100) else none
          | none => none) =
        if 0 ≤ (u : ℤ) then some (min (((u : ℤ) : ℚ) / 1000000 / dur * 100) 100) else none
      from rfl]
    rw [if_pos (Int.ofNat_nonneg u)]
    norm_num
  · intro dur s hnone
    rw [progressOfLine_outtime]
    by_cases hdur : 0 < dur
    · rw [if_pos hdur, hnone]
    · rw [if_neg hdur]
  · intro dur s v hsome hv
    rw [progressOfLine_outtime]
    by_cases hdur : 0 < dur
    · rw [if_pos hdur, hsome]
      simp only [if_neg (by omega : ¬(0 : ℤ) ≤ v)]
    · rw [if_neg hdur]
  · intro line dur hdur
    unfold progressOfLine
    rw [if_neg (not_lt.mpr hdur)]

/-- C3 witness: `out_time_ms=5000000` at duration 10 reports exactly
50; malformed and negative values report nothing; duration 0 reports
nothing; and the runner's callback list reflects exactly this. -/
theorem run_command_progress_interpretation_witness :
    (run_command ["ffmpeg"] 10 (.run ["out_time_ms=5000000", "frame=1"] 0 [] 2)).2 = [50] ∧
    progressOfLine "out_time_ms=5000000" 10 = some 50 ∧
    progressOfLine "out_time_ms=abc" 10 = none ∧
    progressOfLine "out_time_ms=-1" 10 = none ∧
    progressOfLine "out_time_ms=5000000" 0 = none := by
  have h50 : progressOfLine "out_time_ms=5000000" 10 = some 50 := by
    have h := run_command_progress_interpretation.2.1 5000000 10 (by norm_num)
    rw [show ("out_time_ms=" ++ decRepr 5000000) = "out_time_ms=5000000" from rfl] at h
    rw [h]
    norm_num
  have hf : progressOfLine "frame=1" 10 = none := rfl
  refine ⟨?_, h50, ?_, ?_, ?_⟩
  · rw [run_command_progress_interpretation.1]
    simp [List.filterMap_cons, h50, hf]
  · exact run_command_progress_interpretation.2.2.1 10 "abc" rfl
  · exact run_command_progress_interpretation.2.2.2.1 10 "-1" (-1) rfl (by norm_num)
  · exact run_command_progress_interpretation.2.2.2.2 "out_time_ms=5000000" 0 (by norm_num)

theorem digitsVal_append_zeros (l : List Char) (k : ℕ) :
    digitsVal (l ++ List.replicate k '0') = digitsVal l * 10 ^ k := by
  induction k with
  | zero => simp
  | succ k ih =>
    rw [show List.replicate (k + 1) '0' = List.replicate k '0' ++ ['0'] by
          rw [List.replicate_succ']
        , ← List.append_assoc, digitsVal_append, ih]
    have : digitVal '0' = 0 := by decide
    rw [this]
    ring

theorem pyIntE_of_digits (l : List Char) (hne : l ≠ [])
    (h : ∀ c ∈ l, c.isDigit = true) :
    pyIntE (String.mk l) = .ok ((digitsVal l : ℤ)) := by
  unfold pyIntE
  rw [pyInt_of_digits l hne h]

theorem intPad_ofNat (w n : ℕ) :
    intPad w (n : ℤ) = String.mk (padZeroLeft w (decDigits n)) := by
  unfold intPad
  rw [if_neg (by omega : ¬(n : ℤ) < 0)]
  simp

theorem ljust_of_len_ge (s : String) (w : ℕ) (c : Char)
    (h : w ≤ s.data.length) : ljust s w c = s := by
  unfold ljust
  rw [show w - s.data.length = 0 by omega]
  simp

theorem padZeroLeft_length (w : ℕ) (l : List Char) :
    (padZeroLeft w l).length = max w l.length := by
  simp [padZeroLeft]
  omega

theorem padZeroLeft_all_digit (w : ℕ) (l : List Char)
    (h : ∀ c ∈ l, c.isDigit = true) :
    ∀ c ∈ padZeroLeft w l, c.isDigit = true := by
  intro c hc
  rcases List.mem_append.1 hc with hm | hm
  · rw [List.eq_of_mem_replicate hm]; decide
  · exact h c hm

theorem padZeroLeft_ne_nil (w : ℕ) (l : List Char) (h : l ≠ []) :
    padZeroLeft w l ≠ [] := by
  simp [padZeroLeft, h]

theorem digitsVal_padZeroLeft (w n : ℕ) :
    digitsVal (padZeroLeft w (decDigits n)) = n := by
  unfold padZeroLeft
  rw [digitsVal_zeros, digitsVal_decDigits]

/-- C4: the timecode conversions are exact and mutually inverse:
`_tc_to_ms` computes `((h*3600)+(m*60)+s)*1000` plus the fractional
field right-padded to 3 digits, and formatting any `ms ≥ 0` with
`_ms_to_srt_tc` and converting the four fields back yields `ms`. -/
theorem timecode_exact_and_inverse :
    (∀ hs ms ss fs : String,
      hs.data ≠ [] → (∀ c ∈ hs.data, c.isDigit = true) →
      ms.data ≠ [] → (∀ c ∈ ms.data, c.isDigit = true) →
      ss.data ≠ [] → (∀ c ∈ ss.data, c.isDigit = true) →
      fs.data ≠ [] → (∀ c ∈ fs.data, c.isDigit = true) → fs.data.length ≤ 3 →
      tc_to_ms hs ms ss fs =
        .ok (((digitsVal hs.data * 3600 + digitsVal ms.data * 60 + digitsVal ss.data) * 1000 +
              digitsVal fs.data * 10 ^ (3 - fs.data.length) : ℕ) : ℤ)) ∧
    (∀ n : ℕ, ∃ a b c d : String,
      ms_to_srt_tc (n : ℤ) = a ++ ":" ++ b ++ ":" ++ c ++ "," ++ d ∧
      tc_to_ms a b c d = .ok ((n : ℕ) : ℤ)) := by
  constructor
  · intro hs ms ss fs h1 h2 h3 h4 h5 h6 h7 h8 h9
    have hlj : ljust fs 3 '0' = String.mk (fs.data ++ List.replicate (3 - fs.data.length) '0') := rfl
    have ha : pyIntE hs = .ok ((digitsVal hs.data : ℤ)) := by
      have h := pyIntE_of_digits hs.data h1 h2
      rwa [show String.mk hs.data = hs from by cases hs; rfl] at h
    have hb : pyIntE ms = .ok ((digitsVal ms.data : ℤ)) := by
      have h := pyIntE_of_digits ms.data h3 h4
      rwa [show String.mk ms.data = ms from by cases ms; rfl] at h
    have hc : pyIntE ss = .ok ((digitsVal ss.data : ℤ)) := by
      have h := pyIntE_of_digits ss.data h5 h6
      rwa [show String.mk ss.data = ss from by cases ss; rfl] at h
    unfold tc_to_ms
    rw [hlj, pyIntE_of_digits _ (by simp [h7])
        (by
          intro c hcm
          rcases List.mem_append.1 hcm with hm | hm
          · exact h8 c hm
          · rw [List.eq_of_mem_replicate hm]; decide)]
    simp only [ha, hb, hc, exceptBind_ok]
    show Except.ok _ = Except.ok _
    congr 1
    rw [digitsVal_append_zeros]
    push_cast
    ring
  · intro n
    refine ⟨String.mk (padZeroLeft 2 (decDigits (n / 3600000))),
            String.mk (padZeroLeft 2 (decDigits (n % 3600000 / 60000))),
            String.mk (padZeroLeft 2 (decDigits (n % 3600000 % 60000 / 1000))),
            String.mk (padZeroLeft 3 (decDigits (n % 3600000 % 60000 % 1000))), ?_, ?_⟩
    · show intPad 2 ((n : ℤ) / 3600000) ++ ":" ++
          intPad 2 ((n : ℤ) % 3600000 / 60000) ++ ":" ++
          intPad 2 ((n : ℤ) % 3600000 % 60000 / 1000) ++ "," ++
          intPad 3 ((n : ℤ) % 3600000 % 60000 % 1000) = _
      rw [show ((n : ℤ) / 3600000) = ((n / 3600000 : ℕ) : ℤ) by omega,
          show ((n : ℤ) % 3600000 / 60000) = ((n % 3600000 / 60000 : ℕ) : ℤ) by omega,
          show ((n : ℤ) % 3600000 % 60000 / 1000) = ((n % 3600000 % 60000 / 1000 : ℕ) : ℤ) by omega,
          show ((n : ℤ) % 3600000 % 60000 % 1000) = ((n % 3600000 % 60000 % 1000 : ℕ) : ℤ) by omega,
          intPad_ofNat, intPad_ofNat, intPad_ofNat, intPad_ofNat]
    · have hmsp : n % 3600000 % 60000 % 1000 < 1000 := Nat.mod_lt _ (by omega)
      have hlen : (decDigits (n % 3600000 % 60000 % 1000)).length ≤ 3 :=
        decDigits_length_le 2 _ (by omega)
      unfold tc_to_ms
      rw [ljust_of_len_ge _ _ _ (by
            show 3 ≤ (padZeroLeft 3 (decDigits (n % 3600000 % 60000 % 1000))).length
            rw [padZeroLeft_length]
            omega)]
      simp only [
        pyIntE_of_digits _ (padZeroLeft_ne_nil _ _ (decDigits_ne_nil _))
          (padZeroLeft_all_digit _ _ (decDigits_all_digit _)),
        exceptBind_ok, digitsVal_padZeroLeft]
      show Except.ok _ = Except.ok _
      congr 1
      push_cast
      omega

/-- C4 witness: `01:00:03,599` converts to 3603599 ms via the exact
formula, and 3603599 round-trips through formatting and parsing. -/
theorem timecode_exact_and_inverse_witness :
    tc_to_ms "01" "00" "03" "599" = .ok 3603599 ∧
    (∃ a b c d : String,
      ms_to_srt_tc ((3603599 : ℕ) : ℤ) = a ++ ":" ++ b ++ ":" ++ c ++ "," ++ d ∧
      tc_to_ms a b c d = .ok ((3603599 : ℕ) : ℤ)) := by
  constructor
  · have h := timecode_exact_and_inverse.1 "01" "00" "03" "599"
      (by decide) (by decide) (by decide) (by decide) (by decide)
      (by decide) (by decide) (by decide) (by decide)
    rw [h]
    rfl
  · exact timecode_exact_and_inverse.2 3603599

/-- C5: SRT normalisation right-pads short fractional fields (a
two-digit field `f` is read as `10 * value(f)` ms, so `,07` is 70 ms,
not 7), and a cue with a non-zero hour field (`01:00:03,599`) is kept
with its hour preserved: the whole file normalises to the canonical
form with the hour intact and the fraction padded. -/
theorem srt_normalisation_pads_and_keeps_hours :
    normalise_srt "1\n01:00:03,599 --> 01:00:05,07\nHello world\n\n" =
      .ok "1\n01:00:03,599 --> 01:00:05,070\nHello world\n" ∧
    (∀ f : String, f.data.length = 2 → (∀ c ∈ f.data, c.isDigit = true) →
      tc_to_ms "00" "00" "00" f = .ok ((digitsVal f.data * 10 : ℕ) : ℤ)) := by
  constructor
  · rfl
  · intro f hlen hdig
    have hlj : ljust f 3 '0' = String.mk (f.data ++ ['0']) := by
      show String.mk (f.data ++ List.replicate (3 - f.data.length) '0') = _
      rw [hlen]
      rfl
    unfold tc_to_ms
    rw [hlj, pyIntE_of_digits _ (by simp)
        (by
          intro c hcm
          rcases List.mem_append.1 hcm with hm | hm
          · exact hdig c hm
          · simp only [List.mem_singleton] at hm
            subst hm; decide)]
    simp only [show pyIntE "00" = Except.ok (0 : ℤ) from rfl, exceptBind_ok,
      show ∀ z : ℤ, (pure z : Except PyErr ℤ) = Except.ok z from fun z => rfl]
    refine congrArg Except.ok ?_
    rw [digitsVal_append, show digitVal '0' = 0 from rfl]
    push_cast
    ring

/-- C5 witness: the fractional field `07` is read as exactly 70 ms
(here on top of one second: 1070 ms would be the full timecode with
seconds 01; with all-zero fields it is 70). -/
theorem srt_normalisation_pads_witness :
    tc_to_ms "00" "00" "00" "07" = .ok 70 := by
  have h := srt_normalisation_pads_and_keeps_hours.2 "07" rfl (by decide)
  rw [h]
  rfl

theorem hexDigits_length_le (k n : ℕ) (h : n < 16 ^ (k + 1)) :
    (hexDigits n).length ≤ k + 1 := by
  induction k generalizing n with
  | zero =>
    rw [hexDigits_step]
    split
    · simp
    · next hn => norm_num at h; omega
  | succ k ih =>
    rw [hexDigits_step]
    split
    · simp
    · next hn =>
      rw [List.length_append]
      have hdiv : n / 16 < 16 ^ (k + 1) := by
        rw [Nat.div_lt_iff_lt_mul (by norm_num)]
        have hpow : (16 : ℕ) ^ (k + 1) * 16 = 16 ^ (k + 2) := by ring
        omega
      have := ih (n / 16) hdiv
      simp only [List.length_singleton]
      omega

theorem isHexChar_ne_hash (c : Char) (h : isHexChar c = true) : c ≠ '#' := by
  rintro rfl
  exact absurd h (by decide)

/-- C6: colour conversion is byte-exact.  A 6-hex-digit RGB input with
an optional leading `#` maps to `&H` + alpha + blue + green + red (the
channel substrings in reversed order); for alpha in `[0, 255]` the
alpha field is exactly 2 hex digits; an input whose stripped body is
not 6 characters falls back to white `FFFFFF`; the clamp used for the
outline alpha lands in `[0, 255]` (0 = fully opaque in the ASS
convention); and the force-style string embeds the outline colour with
exactly that clamped alpha. -/
theorem hex_color_conversion_exact :
    (∀ (hash : Bool) (r g b : String) (a : ℤ),
      r.data.length = 2 → g.data.length = 2 → b.data.length = 2 →
      (∀ c ∈ r.data ++ g.data ++ b.data, isHexChar c = true) →
      hex_to_ass_color ((if hash then "#" else "") ++ (r ++ g ++ b)) a =
        "&H" ++ hexFmt02X a ++ b ++ g ++ r) ∧
    (∀ a : ℤ, 0 ≤ a → a ≤ 255 → (hexFmt02X a).length = 2) ∧
    (∀ (s : String) (a : ℤ), (s.data.dropWhile (fun c => c = '#')).length ≠ 6 →
      hex_to_ass_color s a = "&H" ++ hexFmt02X a ++ "FFFFFF") ∧
    (∀ a : ℤ, 0 ≤ min 255 (max 0 a) ∧ min 255 (max 0 a) ≤ 255) ∧
    (∀ d : StyleDict, ∃ pre post : String,
      build_force_style d =
        pre ++ hex_to_ass_color d.OutlineColour (min 255 (max 0 d.OutlineAlpha)) ++ post) := by
  refine ⟨?_, ?_, ?_, fun a => ⟨by omega, by omega⟩, ?_⟩
  · intro hash r g b a hr hg hb hhex
    obtain ⟨c1, c2, hr2⟩ := List.length_eq_two.mp hr
    obtain ⟨c3, c4, hg2⟩ := List.length_eq_two.mp hg
    obtain ⟨c5, c6, hb2⟩ := List.length_eq_two.mp hb
    have hr3 : r = String.mk [c1, c2] := congrArg String.mk hr2
    have hg3 : g = String.mk [c3, c4] := congrArg String.mk hg2
    have hb3 : b = String.mk [c5, c6] := congrArg String.mk hb2
    subst hr3 hg3 hb3
    have h1 : c1 ≠ '#' := isHexChar_ne_hash c1 (hhex c1 (by simp))
    cases hash
    · show hex_to_ass_color
          ("" ++ (String.mk [c1, c2] ++ String.mk [c3, c4] ++ String.mk [c5, c6])) a = _
      unfold hex_to_ass_color
      rw [show ("" ++ (String.mk [c1, c2] ++ String.mk [c3, c4] ++ String.mk [c5, c6])).data =
          [c1, c2, c3, c4, c5, c6] from rfl]
      rw [List.dropWhile_cons]
      simp only [decide_eq_true_eq]
      rw [if_neg h1]
      rfl
    · show hex_to_ass_color
          ("#" ++ (String.mk [c1, c2] ++ String.mk [c3, c4] ++ String.mk [c5, c6])) a = _
      unfold hex_to_ass_color
      rw [show ("#" ++ (String.mk [c1, c2] ++ String.mk [c3, c4] ++ String.mk [c5, c6])).data =
          '#' :: [c1, c2, c3, c4, c5, c6] from rfl]
      rw [List.dropWhile_cons]
      simp only [decide_eq_true_eq, if_true]
      rw [List.dropWhile_cons]
      simp only [decide_eq_true_eq]
      rw [if_neg h1]
      rfl
  · intro a h0 h255
    unfold hexFmt02X
    rw [if_neg (by omega)]
    show (padZeroLeft 2 (hexDigits a.toNat)).length = 2
    rw [padZeroLeft_length]
    have h256 : a.toNat < 16 ^ 2 := by
      rw [show (16 : ℕ) ^ 2 = 256 from rfl]
      omega
    have hlen := hexDigits_length_le 1 a.toNat h256
    omega
  · intro s a hlen
    unfold hex_to_ass_color
    dsimp only
    rw [if_pos hlen]
    apply String.ext
    simp only [String.data_append, List.append_assoc]
    rfl
  · intro d
    refine ⟨"FontName=" ++ d.FontName ++ "," ++ ("FontSize=" ++ intRepr d.FontSize) ++ "," ++
            ("PrimaryColour=" ++ hex_to_ass_color d.PrimaryColour 0) ++ "," ++ "OutlineColour=",
            "," ++ commaJoin ["MarginV=" ++ intRepr d.MarginV, "BorderStyle=1",
              "Outline=" ++ intRepr d.Outline, "Shadow=" ++ intRepr d.Shadow,
              "Bold=" ++ d.Bold, "Italic=" ++ d.Italic, "Alignment=2"], ?_⟩
    apply String.ext
    simp [build_force_style, commaJoin, String.data_append, List.append_assoc]

/-- C6 witness: `#FF0000` with alpha 85 maps to the byte-exact token
with reversed channels; alpha 85 renders as 2 hex digits; a wrong
length input falls back to white; an out-of-range alpha clamps into
`[0, 255]`; and the default style dictionary embeds its clamped
outline colour in the force-style string. -/
theorem hex_color_conversion_exact_witness :
    hex_to_ass_color ("#" ++ ("FF" ++ "00" ++ "00")) 85 =
      "&H" ++ hexFmt02X 85 ++ "00" ++ "00" ++ "FF" ∧
    (hexFmt02X 85).length = 2 ∧
    hex_to_ass_color "abc" 7 = "&H" ++ hexFmt02X 7 ++ "FFFFFF" ∧
    (0 ≤ min 255 (max 0 (300 : ℤ)) ∧ min 255 (max 0 (300 : ℤ)) ≤ 255) ∧
    (∃ pre post : String,
      build_force_style {} =
        pre ++ hex_to_ass_color ({} : StyleDict).OutlineColour
          (min 255 (max 0 ({} : StyleDict).OutlineAlpha)) ++ post) := by
  refine ⟨?_, ?_, ?_, ?_, ?_⟩
  · exact hex_color_conversion_exact.1 true "FF" "00" "00" 85 rfl rfl rfl (by decide)
  · exact hex_color_conversion_exact.2.1 85 (by norm_num) (by norm_num)
  · exact hex_color_conversion_exact.2.2.1 "abc" 7 (by decide)
  · exact hex_color_conversion_exact.2.2.2.1 300
  · exact hex_color_conversion_exact.2.2.2.2 {}

theorem stringMk_data (s : String) : String.mk s.data = s := by
  cases s
  rfl

theorem mem_takeWhileP (p : Char → Bool) (l : List Char) (a : Char)
    (h : a ∈ l.takeWhile p) : p a = true := by
  induction l with
  | nil => simp at h
  | cons c rest ih =>
    rw [List.takeWhile_cons] at h
    by_cases hpc : p c = true
    · rw [if_pos hpc] at h
      rcases List.mem_cons.1 h with rfl | hm
      · exact hpc
      · exact ih hm
    · rw [if_neg hpc] at h
      simp at h

theorem mem_dropWhileP (p : Char → Bool) (l : List Char) (a : Char)
    (h : a ∈ l.dropWhile p) : a ∈ l := by
  induction l with
  | nil => simp at h
  | cons c rest ih =>
    rw [List.dropWhile_cons] at h
    by_cases hpc : p c = true
    · rw [if_pos hpc] at h
      exact List.mem_cons_of_mem c (ih h)
    · rw [if_neg hpc] at h
      exact h

theorem mem_pyStripL (l : List Char) (a : Char) (h : a ∈ pyStripL l) : a ∈ l := by
  unfold pyStripL at h
  rw [List.mem_reverse] at h
  have h2 := mem_dropWhileP _ _ _ h
  rw [List.mem_reverse] at h2
  exact mem_dropWhileP _ _ _ h2

theorem findKV_noComma (pat : List Char) :
    ∀ l v, findKV pat l = some v → ',' ∉ v := by
  intro l
  induction l with
  | nil => intro v h; cases h
  | cons c rest ih =>
    intro v h
    rw [findKV] at h
    cases hdrop : (c :: rest).drop pat.length with
    | nil =>
      rw [hdrop] at h
      exact ih v h
    | cons a after =>
      rw [hdrop] at h
      dsimp only at h
      by_cases hcond : leadsWith pat (c :: rest) = true ∧ a ≠ ','
      · rw [if_pos hcond] at h
        injection h with hv
        subst hv
        intro hmem
        have := mem_takeWhileP _ _ _ hmem
        simp at this
      · rw [if_neg hcond] at h
        exact ih v h

theorem styleFieldStr_noComma (k dflt : String) (l : List Char)
    (hd : ',' ∉ dflt.data) : ',' ∉ (styleFieldStr k dflt l).data := by
  unfold styleFieldStr
  cases hf : findKV (k.data ++ ['=']) l with
  | none => exact hd
  | some v =>
    intro hmem
    exact findKV_noComma _ _ _ hf (mem_pyStripL _ _ hmem)

theorem digit_ne_comma (c : Char) (h : c.isDigit = true) : c ≠ ',' := by
  rintro rfl
  exact absurd h (by decide)

theorem intRepr_noComma (n : ℤ) : ',' ∉ (intRepr n).data := by
  unfold intRepr
  split
  · intro hmem
    rw [String.data_append] at hmem
    rcases List.mem_append.1 hmem with hm | hm
    · simp at hm
    · exact digit_ne_comma _ (decDigits_all_digit _ _ hm) rfl
  · intro hmem
    exact digit_ne_comma _ (decDigits_all_digit _ _ hmem) rfl

theorem hexChar_ne_comma (d : ℕ) : hexChar d ≠ ',' := by
  unfold hexChar
  split <;> decide

theorem hexDigits_ne_comma (n : ℕ) : ∀ c ∈ hexDigits n, c ≠ ',' := by
  induction n using Nat.strong_induction_on with
  | _ n ih =>
    rw [hexDigits_step]
    split
    · simp only [List.mem_singleton]
      rintro c rfl
      exact hexChar_ne_comma n
    · intro c hc
      rcases List.mem_append.1 hc with hm | hm
      · exact ih _ (Nat.div_lt_self (by omega) (by omega)) c hm
      · simp only [List.mem_singleton] at hm
        subst hm
        exact hexChar_ne_comma _
  
theorem hexFmt02X_noComma (a : ℤ) : ',' ∉ (hexFmt02X a).data := by
  unfold hexFmt02X
  split
  · intro hmem
    rw [String.data_append] at hmem
    rcases List.mem_append.1 hmem with hm | hm
    · simp at hm
    · rcases List.mem_append.1 hm with hm2 | hm2
      · exact absurd (List.eq_of_mem_replicate hm2) (by decide)
      · exact hexDigits_ne_comma _ _ hm2 rfl
  · intro hmem
    rcases List.mem_append.1 hmem with hm | hm
    · exact absurd (List.eq_of_mem_replicate hm) (by decide)
    · exact hexDigits_ne_comma _ _ hm rfl

theorem hex_to_ass_color_noComma (s : String) (a : ℤ)
    (hs : ',' ∉ s.data) : ',' ∉ (hex_to_ass_color s a).data := by
  unfold hex_to_ass_color
  dsimp only
  have hbody : ∀ c ∈ (if (s.data.dropWhile (fun c => c = '#')).length ≠ 6
      then "FFFFFF".data else s.data.dropWhile (fun c => c = '#')), c ≠ ',' := by
    intro c hc
    split at hc
    · have : c = 'F' := by simpa using hc
      subst this
      decide
    · rintro rfl
      exact hs (mem_dropWhileP _ _ _ hc)
  intro hmem
  simp only [String.data_append] at hmem
  rcases List.mem_append.1 hmem with hm | hm
  · rcases List.mem_append.1 hm with hm2 | hm2
    · rcases List.mem_append.1 hm2 with hm3 | hm3
      · rcases List.mem_append.1 hm3 with hm4 | hm4
        · simp at hm4
        · exact hexFmt02X_noComma a hm4
      · exact hbody _ (List.drop_subset _ _ (List.take_subset _ _ hm3)) rfl
    · exact hbody _ (List.drop_subset _ _ (List.take_subset _ _ hm2)) rfl
  · exact hbody _ (List.take_subset _ _ hm) rfl

theorem noComma_append (a b : String) (ha : ',' ∉ a.data) (hb : ',' ∉ b.data) :
    ',' ∉ (a ++ b).data := by
  rw [String.data_append]
  intro h
  rcases List.mem_append.1 h with hm | hm
  · exact ha hm
  · exact hb hm

theorem commaJoin_tokens : ∀ parts : List String, parts ≠ [] →
    (∀ p ∈ parts, ',' ∉ p.data) → splitChar ',' (commaJoin parts) = parts := by
  intro parts
  induction parts with
  | nil => intro h; exact absurd rfl h
  | cons x rest ih =>
    intro _ hnc
    cases rest with
    | nil =>
      show splitChar ',' (commaJoin [x]) = [x]
      unfold splitChar
      rw [show commaJoin [x] = x from rfl,
          splitCharL_not_mem _ _ (hnc x (by simp))]
      simp [stringMk_data]
    | cons y rest2 =>
      have hx := hnc x (by simp)
      have hdata : (commaJoin (x :: y :: rest2)).data =
          x.data ++ ',' :: (commaJoin (y :: rest2)).data := by
        show (x ++ "," ++ commaJoin (y :: rest2)).data = _
        simp [String.data_append]
      unfold splitChar
      rw [hdata, splitCharL_append _ _ _ hx, List.map_cons, stringMk_data]
      have ihres := ih (by simp) (fun p hp => hnc p (by simp [hp]))
      unfold splitChar at ihres
      rw [ihres]

theorem parse_ok_fields (s : String) (d : StyleDict) (h : parse_styles s = .ok d) :
    d.FontName = styleFieldStr "FontName" "Arial" s.data ∧
    d.PrimaryColour = styleFieldStr "PrimaryColour" "#FFFFFF" s.data ∧
    d.OutlineColour = styleFieldStr "OutlineColour" "#000000" s.data ∧
    d.Bold = styleFieldStr "Bold" "0" s.data ∧
    d.Italic = styleFieldStr "Italic" "0" s.data := by
  unfold parse_styles at h
  dsimp only at h
  cases h1 : styleFieldInt "FontSize" 50 s.data with
  | error e => rw [h1] at h; simp [exceptBind_err] at h
  | ok fontSize =>
  rw [h1, exceptBind_ok] at h
  cases h2 : styleFieldInt "MarginV" 60 s.data with
  | error e => rw [h2] at h; simp [exceptBind_err] at h
  | ok marginV =>
  rw [h2, exceptBind_ok] at h
  cases h3 : styleFieldInt "Shadow" 2 s.data with
  | error e => rw [h3] at h; simp [exceptBind_err] at h
  | ok shadow =>
  rw [h3, exceptBind_ok] at h
  cases h4 : styleFieldInt "Outline" 0 s.data with
  | error e => rw [h4] at h; simp [exceptBind_err] at h
  | ok outline =>
  rw [h4, exceptBind_ok] at h
  cases h5 : styleFieldInt "OutlineAlpha" 0 s.data with
  | error e => rw [h5] at h; simp [exceptBind_err] at h
  | ok outlineAlpha =>
  rw [h5, exceptBind_ok] at h
  injection h with heq
  subst heq
  exact ⟨rfl, rfl, rfl, rfl, rfl⟩

/-- C7: for every style input that parses with outline width 0, the
force-style string contains the explicit token `Outline=0` together
with `BorderStyle=1`, and no comma-separated token assigns `Outline=`
any other value (no non-zero stroke), whatever the outline colour and
opacity inputs are. -/
theorem outline_zero_always_explicit (s : String) (d : StyleDict)
    (hparse : parse_styles s = .ok d) (hout : d.Outline = 0) :
    "Outline=0" ∈ splitChar ',' (build_force_style d) ∧
    "BorderStyle=1" ∈ splitChar ',' (build_force_style d) ∧
    ∀ t ∈ splitChar ',' (build_force_style d),
      leadsWith "Outline=".data t.data = true → t = "Outline=0" := by
  obtain ⟨hFN, hPC, hOC, hB, hI⟩ := parse_ok_fields s d hparse
  have htok : splitChar ',' (build_force_style d) =
      ["FontName=" ++ d.FontName,
       "FontSize=" ++ intRepr d.FontSize,
       "PrimaryColour=" ++ hex_to_ass_color d.PrimaryColour 0,
       "OutlineColour=" ++ hex_to_ass_color d.OutlineColour (min 255 (max 0 d.OutlineAlpha)),
       "MarginV=" ++ intRepr d.MarginV,
       "BorderStyle=1",
       "Outline=" ++ intRepr d.Outline,
       "Shadow=" ++ intRepr d.Shadow,
       "Bold=" ++ d.Bold,
       "Italic=" ++ d.Italic,
       "Alignment=2"] := by
    unfold build_force_style
    dsimp only
    apply commaJoin_tokens _ (by simp)
    intro p hp
    simp only [List.mem_cons, List.not_mem_nil, or_false] at hp
    rcases hp with rfl | rfl | rfl | rfl | rfl | rfl | rfl | rfl | rfl | rfl | rfl
    · exact noComma_append _ _ (by decide)
        (by rw [hFN]; exact styleFieldStr_noComma _ _ _ (by decide))
    · exact noComma_append _ _ (by decide) (intRepr_noComma _)
    · exact noComma_append _ _ (by decide)
        (hex_to_ass_color_noComma _ _
          (by rw [hPC]; exact styleFieldStr_noComma _ _ _ (by decide)))
    · exact noComma_append _ _ (by decide)
        (hex_to_ass_color_noComma _ _
          (by rw [hOC]; exact styleFieldStr_noComma _ _ _ (by decide)))
    · exact noComma_append _ _ (by decide) (intRepr_noComma _)
    · decide
    · exact noComma_append _ _ (by decide) (intRepr_noComma _)
    · exact noComma_append _ _ (by decide) (intRepr_noComma _)
    · exact noComma_append _ _ (by decide)
        (by rw [hB]; exact styleFieldStr_noComma _ _ _ (by decide))
    · exact noComma_append _ _ (by decide)
        (by rw [hI]; exact styleFieldStr_noComma _ _ _ (by decide))
    · decide
  rw [htok, hout]
  refine ⟨?_, ?_, ?_⟩
  · rw [show ("Outline=" ++ intRepr (0 : ℤ)) = "Outline=0" from rfl]
    simp
  · simp
  · intro t ht hlead
    simp only [List.mem_cons, List.not_mem_nil, or_false] at ht
    rcases ht with rfl | rfl | rfl | rfl | rfl | rfl | rfl | rfl | rfl | rfl | rfl
    · exact absurd hlead (by
        rw [show leadsWith "Outline=".data ("FontName=" ++ d.FontName).data = false from rfl]
        simp)
    · exact absurd hlead (by
        rw [show leadsWith "Outline=".data ("FontSize=" ++ intRepr d.FontSize).data = false from rfl]
        simp)
    · exact absurd hlead (by
        rw [show leadsWith "Outline=".data
          ("PrimaryColour=" ++ hex_to_ass_color d.PrimaryColour 0).data = false from rfl]
        simp)
    · exact absurd hlead (by
        rw [show leadsWith "Outline=".data
          ("OutlineColour=" ++ hex_to_ass_color d.OutlineColour
            (min 255 (max 0 d.OutlineAlpha))).data = false from rfl]
        simp)
    · exact absurd hlead (by
        rw [show leadsWith "Outline=".data ("MarginV=" ++ intRepr d.MarginV).data = false from rfl]
        simp)
    · exact absurd hlead (by decide)
    · rfl
    · exact absurd hlead (by
        rw [show leadsWith "Outline=".data ("Shadow=" ++ intRepr d.Shadow).data = false from rfl]
        simp)
    · exact absurd hlead (by
        rw [show leadsWith "Outline=".data ("Bold=" ++ d.Bold).data = false from rfl]
        simp)
    · exact absurd hlead (by
        rw [show leadsWith "Outline=".data ("Italic=" ++ d.Italic).data = false from rfl]
        simp)
    · exact absurd hlead (by decide)

/-- C7 witness: the empty style string parses to the defaults (outline
width 0), and its force-style tokens contain `Outline=0` and
`BorderStyle=1` with no other `Outline=` assignment. -/
theorem outline_zero_always_explicit_witness :
    "Outline=0" ∈ splitChar ',' (build_force_style {}) ∧
    "BorderStyle=1" ∈ splitChar ',' (build_force_style {}) ∧
    ∀ t ∈ splitChar ',' (build_force_style {}),
      leadsWith "Outline=".data t.data = true → t = "Outline=0" :=
  outline_zero_always_explicit "" {} rfl rfl
